import Mathlib

/-!
Verification of the link-store core of the `dub` repository
(`src/lib/upstash.ts`) against its natural-language specification.

The store backend is the external key-value service of spec section 6:
a flat keyspace of string keys holding either a field map (hash), an
ordered set (member with numeric score), or a cached scalar.  The
TypeScript functions are embedded as pure state transformers over that
keyspace; `Date.now()` readings and the `nanoid()` candidate stream are
passed in explicitly, and the unbounded collision-retry recursion is
given fuel in the form of a finite candidate list (returning `none`
when the fuel runs out, which models non-termination of the retry
loop).
-/

set_option autoImplicit false

/-- A link record as stored in a hash field: `{ url, title, timestamp }`. -/
structure LinkRecord where
  url : String
  title : String
  timestamp : Nat
deriving DecidableEq, Repr

/-- A value held at one key of the external store (spec section 6):
a hash (field map), an ordered set (member, score), or a cached scalar.
Ordered-set members (keys, and serialized click events) are strings. -/
inductive RValue where
  | hash : List (String × LinkRecord) → RValue
  | zset : List (String × Nat) → RValue
  | scalar : Nat → RValue
deriving DecidableEq, Repr

/-- The whole store: a flat keyspace from string keys to values. -/
abbrev Store := String → Option RValue

/-- Point update of the store. -/
def Store.update (s : Store) (k : String) (v : Option RValue) : Store :=
  fun x => if x = k then v else s x

/-- The empty store. -/
def emptyStore : Store := fun _ => none

/-- Association-list lookup by field name. -/
def alookup {α : Type} (f : String) : List (String × α) → Option α
  | [] => none
  | (g, v) :: rest => if g = f then some v else alookup f rest

/-- Association-list removal of a field. -/
def aremove {α : Type} (f : String) (l : List (String × α)) : List (String × α) :=
  l.filter (fun p => p.1 ≠ f)

/-- Association-list overwrite of a field. -/
def aset {α : Type} (f : String) (v : α) (l : List (String × α)) : List (String × α) :=
  aremove f l ++ [(f, v)]

/-- The hash fields of a value (empty when the value is not a hash). -/
def hfieldsOf : Option RValue → List (String × LinkRecord)
  | some (.hash l) => l
  | _ => []

/-- The ordered-set members of a value (empty when not an ordered set). -/
def zmembersOf : Option RValue → List String
  | some (.zset l) => l.map (fun p => p.1)
  | _ => []

/-- Order used by ZRANGE: ascending score, ties by member. -/
def zleB (p q : String × Nat) : Bool := p.2 < q.2 || (p.2 = q.2 && p.1 ≤ q.1)

/-- Ordered insertion for the ZRANGE sort. -/
def zinsert (p : String × Nat) : List (String × Nat) → List (String × Nat)
  | [] => [p]
  | q :: rest => if zleB p q then p :: q :: rest else q :: zinsert p rest

/-- Insertion sort of ordered-set entries by ascending score. -/
def zsortAsc : List (String × Nat) → List (String × Nat)
  | [] => []
  | p :: rest => zinsert p (zsortAsc rest)

/-- Members of an ordered set in ascending score order. -/
def zrangeList (l : List (String × Nat)) : List String :=
  (zsortAsc l).map (fun p => p.1)

/-- HSETNX: create-if-absent of a hash field; returns whether it was newly
set.  A wrong-typed key cannot be created into and reports no write (the
claims only reach well-typed states). -/
def hsetnxStore (s : Store) (k f : String) (v : LinkRecord) : Nat × Store :=
  match s k with
  | some (.hash l) =>
    match alookup f l with
    | some _ => (0, s)
    | none => (1, s.update k (some (.hash (l ++ [(f, v)]))))
  | none => (1, s.update k (some (.hash [(f, v)])))
  | some _ => (0, s)

/-- HSET: unconditional overwrite of a hash field; returns the number of
newly created fields. -/
def hsetStore (s : Store) (k f : String) (v : LinkRecord) : Nat × Store :=
  match s k with
  | some (.hash l) =>
    ((if (alookup f l).isSome then 0 else 1), s.update k (some (.hash (aset f v l))))
  | none => (1, s.update k (some (.hash [(f, v)])))
  | some _ => (0, s)

/-- HDEL: remove a hash field if present; returns the number removed. -/
def hdelStore (s : Store) (k f : String) : Nat × Store :=
  match s k with
  | some (.hash l) =>
    ((if (alookup f l).isSome then 1 else 0), s.update k (some (.hash (aremove f l))))
  | _ => (0, s)

/-- HEXISTS: 1 when the field is present, 0 otherwise. -/
def hexistsStore (s : Store) (k f : String) : Nat :=
  match s k with
  | some (.hash l) => if (alookup f l).isSome then 1 else 0
  | _ => 0

/-- Lookup of one hash field (HMGET on a single field: absent fields are
reported absent). -/
def hlookupStore (s : Store) (k f : String) : Option LinkRecord :=
  match s k with
  | some (.hash l) => alookup f l
  | _ => none

/-- ZADD: insert or rescore a member; returns the number of new members. -/
def zaddStore (s : Store) (k : String) (sc : Nat) (m : String) : Nat × Store :=
  match s k with
  | some (.zset l) =>
    ((if (alookup m l).isSome then 0 else 1),
      s.update k (some (.zset (aremove m l ++ [(m, sc)]))))
  | none => (1, s.update k (some (.zset [(m, sc)])))
  | some _ => (0, s)

/-- ZREM: remove a member if present. -/
def zremStore (s : Store) (k m : String) : Nat × Store :=
  match s k with
  | some (.zset l) =>
    ((if (alookup m l).isSome then 1 else 0), s.update k (some (.zset (aremove m l))))
  | _ => (0, s)

/-- ZCARD: number of members. -/
def zcardStore (s : Store) (k : String) : Nat :=
  match s k with
  | some (.zset l) => l.length
  | _ => 0

/-- ZCOUNT: number of members with score in the inclusive range. -/
def zcountStore (s : Store) (k : String) (lo hi : Nat) : Nat :=
  match s k with
  | some (.zset l) => (l.filter (fun p => lo ≤ p.2 && p.2 ≤ hi)).length
  | _ => 0

/-- ZRANGE 0 -1: all members in ascending score order. -/
def zrangeStore (s : Store) (k : String) : List String :=
  match s k with
  | some (.zset l) => zrangeList l
  | _ => []

/-- ZRANGE 0 -1 with `rev: true`: all members, most recent first. -/
def zrangeRevStore (s : Store) (k : String) : List String :=
  (zrangeStore s k).reverse

/-- The score of a member of an ordered set, if present. -/
def zscoreStore (s : Store) (k m : String) : Option Nat :=
  match s k with
  | some (.zset l) => alookup m l
  | _ => none

/-- First-some choice on optional values. -/
def oor {α : Type} (a b : Option α) : Option α :=
  match a with
  | some v => some v
  | none => b

/-- RENAME: move the value at `a` to `b` (overwriting `b`); a missing
source is an error and leaves the store unchanged. -/
def renameOne (s : Store) (a b : String) : Store :=
  match s a with
  | none => s
  | some v => (s.update a none).update b (some v)

/-- One command of a pipelined batch (spec section 6: ordered, no
implicit transaction). -/
inductive Cmd where
  | hdel (k f : String)
  | hsetF (k f : String) (v : LinkRecord)
  | zrem (k m : String)
  | zadd (k : String) (sc : Nat) (m : String)
  | zcount (k : String) (lo hi : Nat)
  | ren (src dst : String)
deriving DecidableEq, Repr

/-- Execute one command; `none` is the per-command error result (only a
RENAME of a missing source errors among the commands the code issues). -/
def execCmd (s : Store) : Cmd → Option Nat × Store
  | .hdel k f => (some (hdelStore s k f).1, (hdelStore s k f).2)
  | .hsetF k f v => (some (hsetStore s k f v).1, (hsetStore s k f v).2)
  | .zrem k m => (some (zremStore s k m).1, (zremStore s k m).2)
  | .zadd k sc m => (some (zaddStore s k sc m).1, (zaddStore s k sc m).2)
  | .zcount k lo hi => (some (zcountStore s k lo hi), s)
  | .ren a b =>
    match s a with
    | none => (none, s)
    | some _ => (some 1, renameOne s a b)

/-- Execute a pipelined batch in order.  Every command runs (a failed
command has no effect but does not stop the batch), matching the
pipelined-batch contract of spec section 6. -/
def execPipe (s : Store) : List Cmd → List (Option Nat) × Store
  | [] => ([], s)
  | c :: rest =>
    let p := execCmd s c
    let q := execPipe p.2 rest
    (p.1 :: q.1, q.2)

/-- Sequential renames of a list of (source, destination) pairs. -/
def execRenames (ps : List (String × String)) (s : Store) : Store :=
  ps.foldl (fun t p => renameOne t p.1 p.2) s

/-- JavaScript truthiness of an optional string argument (absent and the
empty string are falsy). -/
def truthy : Option String → Bool
  | none => false
  | some t => decide (t ≠ "")

/-- Title resolution `title || (await getTitleFromUrl(url))`: the external
title service is a collaborator and is passed in as a function. -/
def resolveTitle (titleOf : String → String) (url : String) : Option String → String
  | some t => if t = "" then titleOf url else t
  | none => titleOf url

/-- The key of the per-hostname link hash, from the source's
template string to the backing store. -/
def linksKey (hostname : String) : String := hostname ++ ":links"

/-- The optional per-user suffix of the timestamp index key
(an untruthy userId adds nothing). -/
def tsSuffix : Option String → String
  | some u => if u = "" then "" else ":" ++ u
  | none => ""

/-- The key of the ordered timestamp index, with optional per-user
sub-index. -/
def tsKey (hostname : String) (userId : Option String) : String :=
  hostname ++ ":links:timestamps" ++ tsSuffix userId

/-- The key of the per-link click log. -/
def clicksKey (hostname key : String) : String :=
  hostname ++ ":clicks:" ++ key

/-- The key of the hostname's root click log. -/
def rootClicksKey (hostname : String) : String :=
  hostname ++ ":root:clicks"

/-- The key of the cached usage scalar. -/
def usageKey (hostname : String) : String := "usage:" ++ hostname

/-- The 62-character nanoid alphabet of the source. -/
def nanoidAlphabet : List Char :=
  "0123456789ABCDEFGHIJKLMNOPQRSTUVWXYZabcdefghijklmnopqrstuvwxyz".toList

/-- A 7-character key over the nanoid alphabet, the shape of every
`nanoid()` result. -/
def isNanoidKey (k : String) : Bool :=
  k.length = 7 && k.data.all (fun c => nanoidAlphabet.contains c)

/-- Modelled from the spec: the reserved-key set `RESERVED_KEYS` lives in
`lib/constants`, which is not among the sources; the spec only requires a
fixed finite set of short identifiers barred on the primary domain, so the
set is a parameter of every operation that consults it.  `reservedDemo` is
one concrete instantiation used by the closed evaluations; it contains a
7-character member of the nanoid alphabet, as nothing in the spec bounds
the length of a reserved key away from the generated length. -/
def reservedDemo : List String := ["login", "privacy"]

/-- `setKey`: create-if-absent of `key` in `hostname:links` with record
`{url, title-or-fetched, Date.now()}`; the `Date.now()` reading is the
explicit `now` argument. -/
def setKey (titleOf : String → String) (s : Store) (hostname key url : String)
    (title : Option String) (now : Nat) : Nat × Store :=
  hsetnxStore s (linksKey hostname) key ⟨url, resolveTitle titleOf url title, now⟩

/-- `setRandomKey`: draw candidates from the nanoid stream and retry
until `setKey` reports a fresh insert; `none` when the candidate fuel is
exhausted (the source recurses without bound). -/
def setRandomKey (titleOf : String → String) (s : Store) (hostname url : String)
    (title : Option String) (now : Nat) : List String → Option (Nat × String × Store)
  | [] => none
  | k :: rest =>
    let p := setKey titleOf s hostname k url title now
    if p.1 = 0 then setRandomKey titleOf s hostname url title now rest
    else some (p.1, k, p.2)

/-- `getRandomKey`: draw candidates until `hexists` on `hostname:links`
reports the key absent (the reserved-key set is never consulted here). -/
def getRandomKey (s : Store) (hostname : String) : List String → Option String
  | [] => none
  | k :: rest =>
    if hexistsStore s (linksKey hostname) k = 1 then getRandomKey s hostname rest
    else some k

/-- `checkIfKeyExists`: reserved keys on `dub.sh` are always reported as
existing; otherwise `hexists` on the hash. -/
def checkIfKeyExists (reserved : List String) (s : Store) (hostname key : String) : Nat :=
  if hostname = "dub.sh" ∧ key ∈ reserved then 1
  else hexistsStore s (linksKey hostname) key

/-- `recordClick`: append one serialized click event (an opaque string
assembled from the request context) at score `Date.now()`, to the
per-key log for a truthy key and to the root log otherwise. -/
def recordClick (s : Store) (hostname ev : String) (now : Nat)
    (key : Option String) : Nat × Store :=
  zaddStore s
    (if truthy key then clicksKey hostname (key.getD "") else rootClicksKey hostname)
    now ev

/-- `getLinksForProject`: reverse-ordered keys of the timestamp index,
each joined with its hash record; a key with absent metadata keeps only
the `key` field (the spread of an absent record adds nothing). -/
def getLinksForProject (s : Store) (slug : String) (userId : Option String) :
    List (String × Option LinkRecord) :=
  let keys := zrangeRevStore s (tsKey slug userId)
  if keys.length = 0 then []
  else keys.map (fun k => (k, hlookupStore s (linksKey slug) k))

/-- `getLinkCountForProject`: cardinality of the primary timestamp index. -/
def getLinkCountForProject (s : Store) (slug : String) : Nat :=
  zcardStore s (tsKey slug none)

/-- The value the source's `response` variable holds after the create
step of `addLink`: a plain number from `setKey`, or the record
`{ response, key }` that `setRandomKey` resolves to. -/
inductive SetResult where
  | num : Nat → SetResult
  | obj : Nat → String → SetResult
deriving DecidableEq, Repr

/-- JavaScript strict equality `response === 1` over that union: a record
value is never strictly equal to the number 1. -/
def eqOne : SetResult → Bool
  | .num n => decide (n = 1)
  | .obj _ _ => false

/-- `addLink`: reserved-key rejection on `dub.sh`, then create through
`setKey` (truthy key) or `setRandomKey` (random path), then
`if (response === 1)` insert the `key` argument into the timestamp index
at score `Date.now()`, else return null.  `nowRec` and `nowScore` are the
two separate `Date.now()` readings; `cands` fuels the random path, and an
overall `none` models its non-termination. -/
def addLink (reserved : List String) (titleOf : String → String) (s : Store)
    (hostname url : String) (key title userId : Option String)
    (nowRec nowScore : Nat) (cands : List String) :
    Option (Option Nat × Store) :=
  if hostname = "dub.sh" ∧ truthy key = true ∧ key.getD "" ∈ reserved then
    some (none, s)
  else
    let step : Option (SetResult × Store) :=
      if truthy key then
        let p := setKey titleOf s hostname (key.getD "") url title nowRec
        some (.num p.1, p.2)
      else
        match setRandomKey titleOf s hostname url title nowRec cands with
        | none => none
        | some (r, k, s1) => some (.obj r k, s1)
    match step with
    | none => none
    | some (response, s1) =>
      if eqOne response = true then
        let p := zaddStore s1 (tsKey hostname userId) nowScore (key.getD "")
        some (some p.1, p.2)
      else
        some (none, s1)

/-- The non-null result of `editLink`: the `hset` reply on the same-key
path, or the pipeline replies on the rename path. -/
inductive EditResult where
  | hsetRes (n : Nat)
  | pipeRes (rs : List (Option Nat))
deriving DecidableEq, Repr

/-- The pipelined batch of the rename path of `editLink`: delete the old
hash field, write the new one, move the index membership, and rename the
click log only when it has at least one recorded click. -/
def editPipeline (hostname key newKey url title : String) (timestamp : Nat)
    (userId : Option String) (numClicks : Nat) : List Cmd :=
  [ .hdel (linksKey hostname) key,
    .hsetF (linksKey hostname) newKey ⟨url, title, timestamp⟩,
    .zrem (tsKey hostname userId) key,
    .zadd (tsKey hostname userId) timestamp newKey ]
  ++ (if 0 < numClicks
      then [.ren (clicksKey hostname key) (clicksKey hostname newKey)]
      else [])

/-- `editLink`: same-key edits overwrite the hash field in place;
renames are rejected for reserved or existing targets and otherwise run
`editPipeline` as one batch. -/
def editLink (reserved : List String) (s : Store) (hostname key newKey url title : String)
    (timestamp : Nat) (userId : Option String) : Option EditResult × Store :=
  if key = newKey then
    let p := hsetStore s (linksKey hostname) key ⟨url, title, timestamp⟩
    (some (.hsetRes p.1), p.2)
  else if hostname = "dub.sh" ∧ newKey ∈ reserved then (none, s)
  else if checkIfKeyExists reserved s hostname newKey = 1 then (none, s)
  else
    let numClicks := zcardStore s (clicksKey hostname key)
    let p := execPipe s (editPipeline hostname key newKey url title timestamp userId numClicks)
    (some (.pipeRes p.1), p.2)

/-- The billing window: `[billingCycleStart, now]` when supplied, else the
current calendar month; the month computation is Date-library work and is
passed in as `monthWindow`. -/
def usageWindow (monthWindow : Nat → Nat × Nat) (now : Nat) : Option Nat → Nat × Nat
  | some t => (t, now)
  | none => monthWindow now

/-- The cached usage scalar, absent when the key is missing or does not
hold a scalar. -/
def cachedVal (s : Store) (hostname : String) : Option Nat :=
  match s (usageKey hostname) with
  | some (.scalar v) => some v
  | _ => none

/-- JavaScript truthiness of the cached value: both an absent entry and a
cached 0 are falsy in `if (cachedUsage)`. -/
def truthyCache : Option Nat → Bool
  | none => false
  | some v => decide (v ≠ 0)

/-- The cache-miss computation of `getUsage`: enumerate the primary
timestamp index, batch one ZCOUNT per key over the window, sum, and store
the sum at the usage key (SETEX; the time-to-live is outside the model). -/
def getUsageCompute (monthWindow : Nat → Nat × Nat) (s : Store) (hostname : String)
    (now : Nat) (billingCycleStart : Option Nat) : Nat × Store :=
  let w := usageWindow monthWindow now billingCycleStart
  let links := zrangeStore s (tsKey hostname none)
  let p := if 0 < links.length
    then execPipe s (links.map (fun link => Cmd.zcount (clicksKey hostname link) w.1 w.2))
    else ([], s)
  let usage := (p.1.map (fun r => r.getD 0)).foldl (· + ·) 0
  (usage, Store.update p.2 (usageKey hostname) (some (.scalar usage)))

/-- `getUsage`: return the cached value when truthy, else recompute and
cache. -/
def getUsage (monthWindow : Nat → Nat × Nat) (s : Store) (hostname : String)
    (now : Nat) (billingCycleStart : Option Nat) : Nat × Store :=
  if truthyCache (cachedVal s hostname) then ((cachedVal s hostname).getD 0, s)
  else getUsageCompute monthWindow s hostname now billingCycleStart

/-- The (source, destination) pairs renamed by `changeDomain`: the three
namespace collections and one click log per enumerated key. -/
def cdPairs (hostname newHostname : String) (keys : List String) :
    List (String × String) :=
  [ (linksKey hostname, linksKey newHostname),
    (tsKey hostname none, tsKey newHostname none),
    (rootClicksKey hostname, rootClicksKey newHostname) ]
  ++ keys.map (fun k => (clicksKey hostname k, clicksKey newHostname k))

/-- The pipelined batch of `changeDomain`, in source order. -/
def cdPipeline (hostname newHostname : String) (keys : List String) : List Cmd :=
  (cdPairs hostname newHostname keys).map (fun p => Cmd.ren p.1 p.2)

/-- `changeDomain`: enumerate the keys of the primary timestamp index,
then rename every collection of the namespace in one batch; any
per-command error makes the call report failure (the catch returns null)
while the commands that succeeded keep their effect. -/
def changeDomain (s : Store) (hostname newHostname : String) :
    Option (List (Option Nat)) × Store :=
  let keys := zrangeStore s (tsKey hostname none)
  let p := execPipe s (cdPipeline hostname newHostname keys)
  if p.1.all (fun r => r.isSome) then (some p.1, p.2) else (none, p.2)

/-- Whether a value is a hash or absent (the shapes `hset`-family
commands accept without a type error). -/
def isHashOrNone : Option RValue → Bool
  | some (.hash _) => true
  | none => true
  | _ => false

/-- Whether a value is an ordered set or absent. -/
def isZsetOrNone : Option RValue → Bool
  | some (.zset _) => true
  | none => true
  | _ => false

/-- A concrete namespace used to exercise the domain round trip: two
keys, one of them clicked, no root clicks. -/
def sRT : Store := fun q =>
  if q = "old.sh:links" then
    some (RValue.hash [("aaa1111", ⟨"https://a.io", "A", 10⟩),
                       ("bbb2222", ⟨"https://b.io", "B", 20⟩)])
  else if q = "old.sh:links:timestamps" then
    some (RValue.zset [("aaa1111", 10), ("bbb2222", 20)])
  else if q = "old.sh:clicks:aaa1111" then
    some (RValue.zset [("ev1", 15)])
  else none

/-- A store with one existing explicit key, used by the duplicate-create
witness. -/
def sDup : Store :=
  Store.update emptyStore (linksKey "w.test")
    (some (RValue.hash [("k7k7k7k", ⟨"https://w.io", "W", 9⟩)]))

/-- A store whose timestamp index holds a key with no hash record, used
by the dangling-key read theorems. -/
def sDangling : Store :=
  Store.update
    (Store.update emptyStore (tsKey "p" none)
      (some (RValue.zset [("real", 10), ("ghost", 20)])))
    (linksKey "p") (some (RValue.hash [("real", ⟨"https://r.io", "R", 10⟩)]))

/-- A store with a cached usage of 0 next to one clicked key, used by the
cache-of-zero theorems. -/
def sZeroCache : Store :=
  Store.update
    (Store.update
      (Store.update emptyStore (usageKey "c.test") (some (RValue.scalar 0)))
      (tsKey "c.test" none) (some (RValue.zset [("k1", 5)])))
    (clicksKey "c.test" "k1") (some (RValue.zset [("ev", 50)]))

/-- The concrete usage scenario of the spec: key "abc1234" created on
"ex.test", three clicks on the key and one root click, built through the
operations themselves. -/
def sScen : Store :=
  (recordClick
    (recordClick
      (recordClick
        (recordClick
          ((addLink reservedDemo (fun _ => "Example") emptyStore "ex.test"
              "https://example.com" (some "abc1234") none none 100 101 []).getD
            (none, emptyStore)).2
          "ex.test" "e1" 200 (some "abc1234")).2
        "ex.test" "e2" 300 (some "abc1234")).2
      "ex.test" "e3" 400 (some "abc1234")).2
    "ex.test" "root1" 500 none).2

/-- A store with one clicked link, used by the edit witnesses. -/
def sEdit : Store :=
  Store.update
    (Store.update
      (Store.update emptyStore (linksKey "e.test")
        (some (RValue.hash [("oldkey1", ⟨"https://o.io", "O", 30⟩)])))
      (tsKey "e.test" none) (some (RValue.zset [("oldkey1", 30)])))
    (clicksKey "e.test" "oldkey1") (some (RValue.zset [("c1", 40), ("c2", 41)]))

theorem strCancelLeft {p a b : String} (e : p ++ a = p ++ b) : a = b := by
  have h : p.data ++ a.data = p.data ++ b.data := by
    have h0 := congrArg String.data e
    simpa [String.data_append] using h0
  exact String.ext (List.append_cancel_left h)

theorem strPrefixNe {p a b : String} (hab : a ≠ b) : p ++ a ≠ p ++ b :=
  fun e => hab (strCancelLeft e)

theorem strNeOfTake {n : Nat} {a b : String}
    (h : a.data.take n ≠ b.data.take n) : a ≠ b :=
  fun e => h (congrArg (fun t => t.data.take n) e)

theorem strLenAppend (a b : String) : (a ++ b).length = a.length + b.length := by
  cases a; cases b; exact List.length_append _ _

theorem strNeOfLen {a b : String} (h : a.length ≠ b.length) : a ≠ b :=
  fun e => h (congrArg String.length e)

theorem strAppendAssoc (a b c : String) : a ++ b ++ c = a ++ (b ++ c) := by
  apply String.ext
  simp [String.data_append]

theorem linksKey_length (h : String) : (linksKey h).length = h.length + 6 := by
  have h1 := strLenAppend h ":links"
  have h2 : (":links").length = 6 := rfl
  rw [linksKey, h1, h2]

theorem tsKey_length (h : String) (u : Option String) :
    (tsKey h u).length = h.length + 17 + (tsSuffix u).length := by
  have h1 := strLenAppend (h ++ ":links:timestamps") (tsSuffix u)
  have h2 := strLenAppend h ":links:timestamps"
  have h3 : (":links:timestamps").length = 17 := rfl
  rw [tsKey, h1, h2, h3]

theorem clicksKey_length (h k : String) :
    (clicksKey h k).length = h.length + 8 + k.length := by
  have h1 := strLenAppend (h ++ ":clicks:") k
  have h2 := strLenAppend h ":clicks:"
  have h3 : (":clicks:").length = 8 := rfl
  rw [clicksKey, h1, h2, h3]

theorem rootClicksKey_length (h : String) :
    (rootClicksKey h).length = h.length + 12 := by
  have h1 := strLenAppend h ":root:clicks"
  have h2 : (":root:clicks").length = 12 := rfl
  rw [rootClicksKey, h1, h2]

theorem usageKey_length (h : String) : (usageKey h).length = 6 + h.length := by
  have h1 := strLenAppend "usage:" h
  have h2 : ("usage:").length = 6 := rfl
  rw [usageKey, h1, h2]

theorem linksKey_ne_tsKey (h : String) (u : Option String) :
    linksKey h ≠ tsKey h u := by
  apply strNeOfLen
  rw [linksKey_length, tsKey_length]
  omega

theorem linksKey_ne_clicksKey (h k : String) : linksKey h ≠ clicksKey h k := by
  apply strNeOfLen
  rw [linksKey_length, clicksKey_length]
  omega

theorem linksKey_ne_rootClicksKey (h : String) : linksKey h ≠ rootClicksKey h := by
  apply strNeOfLen
  rw [linksKey_length, rootClicksKey_length]
  omega

theorem tsKey_ne_rootClicksKey (h : String) (u : Option String) :
    tsKey h u ≠ rootClicksKey h := by
  apply strNeOfLen
  rw [tsKey_length, rootClicksKey_length]
  omega

theorem tsKey_ne_clicksKey (h k : String) (u : Option String) :
    tsKey h u ≠ clicksKey h k := by
  have e1 : tsKey h u = h ++ (":links:timestamps" ++ tsSuffix u) := by
    rw [tsKey, strAppendAssoc]
  have e2 : clicksKey h k = h ++ (":clicks:" ++ k) := by
    rw [clicksKey, strAppendAssoc]
  rw [e1, e2]
  apply strPrefixNe
  apply strNeOfTake
  have hl : ((":links:timestamps" ++ tsSuffix u).data.take 2) = [':', 'l'] := rfl
  have hc : ((":clicks:" ++ k).data.take 2) = [':', 'c'] := rfl
  rw [hl, hc]
  decide

theorem rootClicksKey_ne_clicksKey (h k : String) :
    rootClicksKey h ≠ clicksKey h k := by
  have e2 : clicksKey h k = h ++ (":clicks:" ++ k) := by
    rw [clicksKey, strAppendAssoc]
  rw [rootClicksKey, e2]
  apply strPrefixNe
  apply strNeOfTake
  have hr : ((":root:clicks").data.take 2) = [':', 'r'] := rfl
  have hc : ((":clicks:" ++ k).data.take 2) = [':', 'c'] := rfl
  rw [hr, hc]
  decide

theorem clicksKey_inj {h k1 k2 : String} (e : clicksKey h k1 = clicksKey h k2) :
    k1 = k2 := by
  rw [clicksKey, clicksKey] at e
  exact strCancelLeft e

theorem clicksKey_ne {h k1 k2 : String} (hk : k1 ≠ k2) :
    clicksKey h k1 ≠ clicksKey h k2 :=
  fun e => hk (clicksKey_inj e)

theorem usageKey_ne_rootClicksKey (h : String) : usageKey h ≠ rootClicksKey h := by
  apply strNeOfLen
  rw [usageKey_length, rootClicksKey_length]
  omega

theorem usageKey_ne_tsKey (h : String) (u : Option String) :
    usageKey h ≠ tsKey h u := by
  apply strNeOfLen
  rw [usageKey_length, tsKey_length]
  omega

theorem usageKey_ne_clicksKey (h k : String) : usageKey h ≠ clicksKey h k := by
  apply strNeOfLen
  rw [usageKey_length, clicksKey_length]
  omega

@[simp] theorem update_self (s : Store) (k : String) (v : Option RValue) :
    Store.update s k v k = v := by
  simp [Store.update]

theorem update_ne (s : Store) (k : String) (v : Option RValue) {x : String}
    (h : x ≠ k) : Store.update s k v x = s x := by
  simp [Store.update, h]

theorem alookup_append {α : Type} (f : String) (l1 l2 : List (String × α)) :
    alookup f (l1 ++ l2) = oor (alookup f l1) (alookup f l2) := by
  induction l1 with
  | nil => rfl
  | cons p rest ih =>
    obtain ⟨g, v⟩ := p
    by_cases hp : g = f
    · simp [alookup, hp, oor]
    · simp [alookup, hp, ih]

theorem alookup_aremove_self {α : Type} (f : String) (l : List (String × α)) :
    alookup f (aremove f l) = none := by
  induction l with
  | nil => rfl
  | cons p rest ih =>
    obtain ⟨g, v⟩ := p
    by_cases hp : g = f
    · have e : aremove f ((g, v) :: rest) = aremove f rest := by
        simp [aremove, List.filter_cons, hp]
      rw [e]; exact ih
    · have e : aremove f ((g, v) :: rest) = (g, v) :: aremove f rest := by
        simp [aremove, List.filter_cons, hp]
      rw [e]
      simp only [alookup, hp, if_false]
      exact ih

theorem alookup_aremove_ne {α : Type} {f g : String} (h : g ≠ f)
    (l : List (String × α)) : alookup g (aremove f l) = alookup g l := by
  induction l with
  | nil => rfl
  | cons p rest ih =>
    obtain ⟨a, v⟩ := p
    by_cases hp : a = f
    · have e : aremove f ((a, v) :: rest) = aremove f rest := by
        simp [aremove, List.filter_cons, hp]
      have ha : a ≠ g := by
        rw [hp]; exact fun e2 => h e2.symm
      rw [e, ih]
      simp only [alookup, ha, if_false]
    · have e : aremove f ((a, v) :: rest) = (a, v) :: aremove f rest := by
        simp [aremove, List.filter_cons, hp]
      rw [e]
      by_cases hg : a = g
      · simp only [alookup, hg, if_true]
      · simp only [alookup, hg, if_false]
        exact ih

theorem alookup_aset_self {α : Type} (f : String) (v : α) (l : List (String × α)) :
    alookup f (aset f v l) = some v := by
  rw [aset, alookup_append, alookup_aremove_self]
  simp [oor, alookup]

theorem alookup_aset_ne {α : Type} {f g : String} (h : g ≠ f) (v : α)
    (l : List (String × α)) : alookup g (aset f v l) = alookup g l := by
  rw [aset, alookup_append, alookup_aremove_ne h]
  cases hc : alookup g l with
  | none => simp [oor, alookup, Ne.symm h]
  | some w => simp [oor]

theorem alookup_snoc_self {α : Type} (f : String) (v : α) (l : List (String × α))
    (h : alookup f l = none) : alookup f (l ++ [(f, v)]) = some v := by
  rw [alookup_append, h]
  simp [oor, alookup]

theorem alookup_snoc_ne {α : Type} {f g : String} (h : g ≠ f) (v : α)
    (l : List (String × α)) : alookup g (l ++ [(f, v)]) = alookup g l := by
  rw [alookup_append]
  cases hc : alookup g l with
  | none => simp [oor, alookup, Ne.symm h]
  | some w => simp [oor]

theorem renameOne_none (s : Store) (a b : String) (h : s a = none) :
    renameOne s a b = s := by
  unfold renameOne
  rw [h]

theorem renameOne_some (s : Store) (a b : String) (v : RValue) (h : s a = some v) :
    renameOne s a b = (s.update a none).update b (some v) := by
  unfold renameOne
  rw [h]

theorem renameOne_at_other (s : Store) (a b : String) {x : String}
    (hxa : x ≠ a) (hxb : x ≠ b) : renameOne s a b x = s x := by
  cases hs : s a with
  | none => rw [renameOne_none s a b hs]
  | some v =>
    rw [renameOne_some s a b v hs, update_ne _ _ _ hxb, update_ne _ _ _ hxa]

theorem renameOne_at_src (s : Store) (a b : String) (hab : a ≠ b) :
    renameOne s a b a = none := by
  cases hs : s a with
  | none => rw [renameOne_none s a b hs]; exact hs
  | some v =>
    rw [renameOne_some s a b v hs, update_ne _ _ _ hab, update_self]

theorem renameOne_at_dst (s : Store) (a b : String) :
    renameOne s a b b = oor (s a) (s b) := by
  cases hs : s a with
  | none => rw [renameOne_none s a b hs]; rfl
  | some v => rw [renameOne_some s a b v hs, update_self]; rfl

theorem execRenames_nil (s : Store) : execRenames [] s = s := rfl

theorem execRenames_cons (p : String × String) (ps : List (String × String))
    (s : Store) : execRenames (p :: ps) s = execRenames ps (renameOne s p.1 p.2) := rfl

theorem execRenames_at_other (ps : List (String × String)) (s : Store) {x : String}
    (hs : x ∉ ps.map (fun p => p.1)) (hd : x ∉ ps.map (fun p => p.2)) :
    execRenames ps s x = s x := by
  induction ps generalizing s with
  | nil => rfl
  | cons q rest ih =>
    rw [List.map_cons] at hs hd
    simp only [List.mem_cons, not_or] at hs hd
    rw [execRenames_cons, ih (renameOne s q.1 q.2) hs.2 hd.2,
      renameOne_at_other s q.1 q.2 hs.1 hd.1]

theorem oor_none {α : Type} (a : Option α) : oor a none = a := by
  cases a <;> rfl

theorem execRenames_at_src (ps : List (String × String)) (s : Store)
    (p : String × String) (hp : p ∈ ps)
    (hN : (ps.map (fun q => q.1)).Nodup)
    (hd : p.1 ∉ ps.map (fun q => q.2)) :
    execRenames ps s p.1 = none := by
  induction ps generalizing s with
  | nil => cases hp
  | cons q rest ih =>
    rw [List.map_cons] at hN hd
    rw [List.nodup_cons] at hN
    simp only [List.mem_cons, not_or] at hd
    rw [execRenames_cons]
    rcases List.mem_cons.mp hp with he | hm
    · subst he
      rw [execRenames_at_other rest _ hN.1 hd.2]
      exact renameOne_at_src s p.1 p.2 hd.1
    · exact ih (renameOne s q.1 q.2) hm hN.2 hd.2

theorem execRenames_at_dst (ps : List (String × String)) (s : Store)
    (p : String × String) (hp : p ∈ ps)
    (hsN : (ps.map (fun q => q.1)).Nodup)
    (hdN : (ps.map (fun q => q.2)).Nodup)
    (hdisj : ∀ a ∈ ps, ∀ b ∈ ps, a.1 ≠ b.2) :
    execRenames ps s p.2 = oor (s p.1) (s p.2) := by
  induction ps generalizing s with
  | nil => cases hp
  | cons q rest ih =>
    rw [List.map_cons] at hsN hdN
    rw [List.nodup_cons] at hsN hdN
    rw [execRenames_cons]
    rcases List.mem_cons.mp hp with he | hm
    · subst he
      have h1 : p.2 ∉ rest.map (fun r => r.1) := by
        intro m
        rcases List.mem_map.mp m with ⟨r, hr, hre⟩
        exact hdisj r (List.mem_cons_of_mem _ hr) p (List.mem_cons_self _ _) hre
      have h2 : p.2 ∉ rest.map (fun r => r.2) := hdN.1
      rw [execRenames_at_other rest _ h1 h2]
      exact renameOne_at_dst s p.1 p.2
    · have hq : q ∈ q :: rest := List.mem_cons_self _ _
      have hpm : p ∈ q :: rest := List.mem_cons_of_mem _ hm
      have e1 : renameOne s q.1 q.2 p.1 = s p.1 := by
        apply renameOne_at_other
        · intro e
          exact hsN.1 (e ▸ List.mem_map_of_mem (fun r => r.1) hm)
        · exact hdisj p hpm q hq
      have e2 : renameOne s q.1 q.2 p.2 = s p.2 := by
        apply renameOne_at_other
        · intro e
          exact hdisj q hq p hpm e.symm
        · intro e
          exact hdN.1 (e ▸ List.mem_map_of_mem (fun r => r.2) hm)
      rw [ih (renameOne s q.1 q.2) hm hsN.2 hdN.2
        (fun a ha b hb => hdisj a (List.mem_cons_of_mem _ ha) b (List.mem_cons_of_mem _ hb)),
        e1, e2]

theorem execRenames_roundtrip (ps : List (String × String)) (s : Store) (x : String)
    (hsN : (ps.map (fun q => q.1)).Nodup)
    (hdN : (ps.map (fun q => q.2)).Nodup)
    (hdisj : ∀ a ∈ ps, ∀ b ∈ ps, a.1 ≠ b.2)
    (hfresh : ∀ p ∈ ps, s p.2 = none) :
    execRenames (ps.map (fun p => (p.2, p.1))) (execRenames ps s) x = s x := by
  set sw := ps.map (fun p => (p.2, p.1)) with hsw
  have swsrc : sw.map (fun q => q.1) = ps.map (fun q => q.2) := by
    rw [hsw, List.map_map]; rfl
  have swdst : sw.map (fun q => q.2) = ps.map (fun q => q.1) := by
    rw [hsw, List.map_map]; rfl
  have hsN2 : (sw.map (fun q => q.1)).Nodup := by rw [swsrc]; exact hdN
  have hdN2 : (sw.map (fun q => q.2)).Nodup := by rw [swdst]; exact hsN
  have swdisj : ∀ a ∈ sw, ∀ b ∈ sw, a.1 ≠ b.2 := by
    intro a ha b hb
    rw [hsw] at ha hb
    rcases List.mem_map.mp ha with ⟨pa, hpa, ea⟩
    rcases List.mem_map.mp hb with ⟨pb, hpb, eb⟩
    subst ea; subst eb
    exact fun e => hdisj pb hpb pa hpa e.symm
  by_cases hx1 : x ∈ ps.map (fun q => q.1)
  · rcases List.mem_map.mp hx1 with ⟨p, hp, he⟩
    subst he
    have hmem : (p.2, p.1) ∈ sw := by
      rw [hsw]; exact List.mem_map_of_mem _ hp
    have hd : execRenames sw (execRenames ps s) p.1
        = oor (execRenames ps s p.2) (execRenames ps s p.1) :=
      execRenames_at_dst sw (execRenames ps s) (p.2, p.1) hmem hsN2 hdN2 swdisj
    have h2 : execRenames ps s p.2 = oor (s p.1) (s p.2) :=
      execRenames_at_dst ps s p hp hsN hdN hdisj
    have h3 : execRenames ps s p.1 = none := by
      apply execRenames_at_src ps s p hp hsN
      intro m
      rcases List.mem_map.mp m with ⟨r, hr, hre⟩
      exact hdisj p hp r hr hre.symm
    rw [hd, h2, h3, hfresh p hp, oor_none, oor_none]
  · by_cases hx2 : x ∈ ps.map (fun q => q.2)
    · rcases List.mem_map.mp hx2 with ⟨p, hp, he⟩
      subst he
      have hmem : (p.2, p.1) ∈ sw := by
        rw [hsw]; exact List.mem_map_of_mem _ hp
      have h1 : execRenames sw (execRenames ps s) p.2 = none := by
        apply execRenames_at_src sw (execRenames ps s) (p.2, p.1) hmem hsN2
        rw [swdst]
        intro m
        rcases List.mem_map.mp m with ⟨r, hr, hre⟩
        exact hdisj r hr p hp hre
      rw [h1, hfresh p hp]
    · rw [execRenames_at_other sw (execRenames ps s)
        (by rw [swsrc]; exact hx2) (by rw [swdst]; exact hx1),
        execRenames_at_other ps s hx1 hx2]

theorem execCmd_ren_state (s : Store) (a b : String) :
    (execCmd s (Cmd.ren a b)).2 = renameOne s a b := by
  cases hs : s a with
  | none => simp [execCmd, hs, renameOne_none s a b hs]
  | some v => simp [execCmd, hs]

theorem execPipe_ren_state (ps : List (String × String)) (s : Store) :
    (execPipe s (ps.map (fun p => Cmd.ren p.1 p.2))).2 = execRenames ps s := by
  induction ps generalizing s with
  | nil => rfl
  | cons q rest ih =>
    rw [List.map_cons, execRenames_cons]
    show (execPipe (execCmd s (Cmd.ren q.1 q.2)).2 (rest.map (fun p => Cmd.ren p.1 p.2))).2 = _
    rw [execCmd_ren_state, ih]

theorem changeDomain_state (s : Store) (h h2 : String) :
    (changeDomain s h h2).2
      = execRenames (cdPairs h h2 (zrangeStore s (tsKey h none))) s := by
  rw [changeDomain, cdPipeline]
  split
  · rw [execPipe_ren_state]
  · rw [execPipe_ren_state]

theorem cdPairs_srcs (h h2 : String) (keys : List String) :
    (cdPairs h h2 keys).map (fun p => p.1)
      = linksKey h :: tsKey h none :: rootClicksKey h :: keys.map (clicksKey h) := by
  simp [cdPairs]

theorem cdPairs_dsts (h h2 : String) (keys : List String) :
    (cdPairs h h2 keys).map (fun p => p.2)
      = linksKey h2 :: tsKey h2 none :: rootClicksKey h2 :: keys.map (clicksKey h2) := by
  simp [cdPairs]

theorem cdNames_nodup (h : String) (keys : List String) (hk : keys.Nodup) :
    (linksKey h :: tsKey h none :: rootClicksKey h :: keys.map (clicksKey h)).Nodup := by
  refine List.nodup_cons.mpr ⟨?_, List.nodup_cons.mpr ⟨?_, List.nodup_cons.mpr ⟨?_, ?_⟩⟩⟩
  · intro m
    rcases List.mem_cons.mp m with e | m2
    · exact linksKey_ne_tsKey h none e
    rcases List.mem_cons.mp m2 with e | m3
    · exact linksKey_ne_rootClicksKey h e
    rcases List.mem_map.mp m3 with ⟨k, _, e⟩
    exact linksKey_ne_clicksKey h k e.symm
  · intro m
    rcases List.mem_cons.mp m with e | m2
    · exact tsKey_ne_rootClicksKey h none e
    rcases List.mem_map.mp m2 with ⟨k, _, e⟩
    exact tsKey_ne_clicksKey h k none e.symm
  · intro m
    rcases List.mem_map.mp m with ⟨k, _, e⟩
    exact rootClicksKey_ne_clicksKey h k e.symm
  · exact hk.map (fun a b e => clicksKey_inj e)

theorem cdPairs_swap (h h2 : String) (keys : List String) :
    (cdPairs h h2 keys).map (fun p => (p.2, p.1)) = cdPairs h2 h keys := by
  simp [cdPairs]

/-- C5: for a namespace holding at least one key and at least one clicked
key, changing the domain to a fresh namespace (no collection of the new
namespace exists, and no composed key of one namespace aliases one of the
other) and then changing it back restores every key of the store —
links, timestamp index, root click log and every per-key click log — to
its original value. -/
theorem changeDomain_roundtrip (s : Store) (h h2 x : String)
    (hkN : (zrangeStore s (tsKey h none)).Nodup)
    (hkeys : zrangeStore s (tsKey h none) ≠ [])
    (hclicked : ∃ k ∈ zrangeStore s (tsKey h none), s (clicksKey h k) ≠ none)
    (hdisj : ∀ a ∈ cdPairs h h2 (zrangeStore s (tsKey h none)),
      ∀ b ∈ cdPairs h h2 (zrangeStore s (tsKey h none)), a.1 ≠ b.2)
    (hfresh : ∀ p ∈ cdPairs h h2 (zrangeStore s (tsKey h none)), s p.2 = none) :
    (changeDomain (changeDomain s h h2).2 h2 h).2 x = s x := by
  set keys := zrangeStore s (tsKey h none) with hkeq
  have hsN : ((cdPairs h h2 keys).map (fun q => q.1)).Nodup := by
    rw [cdPairs_srcs]
    exact cdNames_nodup h keys hkN
  have hdN : ((cdPairs h h2 keys).map (fun q => q.2)).Nodup := by
    rw [cdPairs_dsts]
    exact cdNames_nodup h2 keys hkN
  have hs1 : (changeDomain s h h2).2 = execRenames (cdPairs h h2 keys) s := by
    rw [changeDomain_state, hkeq]
  have hpT : (tsKey h none, tsKey h2 none) ∈ cdPairs h h2 keys := by
    rw [cdPairs]
    exact List.mem_append_left _ (by simp)
  have hv : (changeDomain s h h2).2 (tsKey h2 none) = s (tsKey h none) := by
    rw [hs1]
    have hd := execRenames_at_dst (cdPairs h h2 keys) s
      (tsKey h none, tsKey h2 none) hpT hsN hdN hdisj
    rw [hd, hfresh (tsKey h none, tsKey h2 none) hpT, oor_none]
  have hk2 : zrangeStore (changeDomain s h h2).2 (tsKey h2 none) = keys := by
    rw [zrangeStore, hv, hkeq, zrangeStore]
  have hs2 : (changeDomain (changeDomain s h h2).2 h2 h).2
      = execRenames (cdPairs h2 h keys) (execRenames (cdPairs h h2 keys) s) := by
    rw [changeDomain_state, hk2, hs1]
  rw [hs2, ← cdPairs_swap]
  exact execRenames_roundtrip (cdPairs h h2 keys) s x hsN hdN hdisj hfresh

/-- Witness: the round trip evaluated on the concrete two-key namespace
`sRT`, checked at the clicked key's click log. -/
theorem changeDomain_roundtrip_witness :
    zrangeStore sRT (tsKey "old.sh" none) ≠ []
    ∧ (changeDomain (changeDomain sRT "old.sh" "new.sh").2 "new.sh" "old.sh").2
        "old.sh:clicks:aaa1111" = sRT "old.sh:clicks:aaa1111" :=
  ⟨by decide,
    changeDomain_roundtrip sRT "old.sh" "new.sh" "old.sh:clicks:aaa1111"
      (by decide) (by decide) (by decide) (by decide) (by decide)⟩

theorem hsetnx_success (s : Store) (kk f : String) (v : LinkRecord)
    (h : (hsetnxStore s kk f v).1 ≠ 0) :
    (hsetnxStore s kk f v).1 = 1
    ∧ hlookupStore s kk f = none
    ∧ (hsetnxStore s kk f v).2
      = Store.update s kk (some (.hash (hfieldsOf (s kk) ++ [(f, v)]))) := by
  cases hsk : s kk with
  | none =>
    refine ⟨by simp [hsetnxStore, hsk], by simp [hlookupStore, hsk], ?_⟩
    simp [hsetnxStore, hsk, hfieldsOf]
  | some v2 =>
    cases v2 with
    | hash l =>
      cases hl : alookup f l with
      | some w =>
        exact absurd (by simp [hsetnxStore, hsk, hl]) h
      | none =>
        refine ⟨by simp [hsetnxStore, hsk, hl], by simp [hlookupStore, hsk, hl], ?_⟩
        simp [hsetnxStore, hsk, hl, hfieldsOf]
    | zset l => exact absurd (by simp [hsetnxStore, hsk]) h
    | scalar n => exact absurd (by simp [hsetnxStore, hsk]) h

theorem alookup_hfieldsOf_of_none (s : Store) (kk f : String)
    (h : hlookupStore s kk f = none) : alookup f (hfieldsOf (s kk)) = none := by
  cases hsk : s kk with
  | none => rfl
  | some v2 =>
    cases v2 with
    | hash l =>
      rw [hlookupStore, hsk] at h
      simpa [hfieldsOf] using h
    | zset l => rfl
    | scalar n => rfl

theorem setRandomKey_sound (titleOf : String → String) (s : Store)
    (hostname url : String) (title : Option String) (now : Nat)
    (cands : List String) (r : Nat) (k : String) (s1 : Store)
    (hrun : setRandomKey titleOf s hostname url title now cands = some (r, k, s1)) :
    r = 1 ∧ hlookupStore s (linksKey hostname) k = none
    ∧ s1 = Store.update s (linksKey hostname)
        (some (.hash (hfieldsOf (s (linksKey hostname))
          ++ [(k, ⟨url, resolveTitle titleOf url title, now⟩)]))) := by
  induction cands with
  | nil => cases hrun
  | cons c rest ih =>
    simp only [setRandomKey] at hrun
    split at hrun
    · exact ih hrun
    · rename_i hz
      have he := Option.some.inj hrun
      obtain ⟨h1, h2, h3⟩ : (setKey titleOf s hostname c url title now).1 = r
          ∧ c = k
          ∧ (setKey titleOf s hostname c url title now).2 = s1 := by
        simpa [Prod.ext_iff] using he
      rw [setKey] at hz h1 h3
      obtain ⟨e1, e2, e3⟩ := hsetnx_success s (linksKey hostname) c
        ⟨url, resolveTitle titleOf url title, now⟩ hz
      subst h2
      exact ⟨h1 ▸ e1, e2, h3 ▸ e3⟩

/-- C3: on the random-key path (no truthy key supplied), whenever the
setRandomKey retry loop terminates, addLink returns null, the store it
leaves behind is exactly setRandomKey's store — the freshly created
record is in the hash, every other key of the store (in particular every
timestamp index) is untouched — and the success branch never ran even
though the create-if-absent succeeded (the `response === 1` comparison
is against the `{ response, key }` record). -/
theorem addLink_random_null (reserved : List String) (titleOf : String → String)
    (s : Store) (hostname url : String) (key title userId : Option String)
    (nowRec nowScore : Nat) (cands : List String) (r : Nat) (k : String) (s1 : Store)
    (x : String)
    (hkey : truthy key = false)
    (hrun : setRandomKey titleOf s hostname url title nowRec cands = some (r, k, s1))
    (hx : x ≠ linksKey hostname) :
    addLink reserved titleOf s hostname url key title userId nowRec nowScore cands
        = some (none, s1)
    ∧ r = 1
    ∧ hlookupStore s (linksKey hostname) k = none
    ∧ hlookupStore s1 (linksKey hostname) k
        = some ⟨url, resolveTitle titleOf url title, nowRec⟩
    ∧ s1 x = s x := by
  obtain ⟨hr, habsent, hst⟩ :=
    setRandomKey_sound titleOf s hostname url title nowRec cands r k s1 hrun
  refine ⟨?_, hr, habsent, ?_, ?_⟩
  · rw [addLink, if_neg (fun hc => by rw [hkey] at hc; exact Bool.false_ne_true hc.2.1)]
    simp only [hkey, Bool.false_eq_true, if_false, hrun]
    rfl
  · rw [hst, hlookupStore, update_self]
    exact alookup_snoc_self k _ _ (alookup_hfieldsOf_of_none s (linksKey hostname) k habsent)
  · rw [hst, update_ne _ _ _ hx]

/-- Witness: the random path run to completion on an empty store with one
candidate; addLink returns null while the candidate's record exists in
the hash and an unrelated key (and thus every timestamp index) is
untouched. -/
theorem addLink_random_null_witness :
    addLink reservedDemo (fun _ => "T") emptyStore "h.test" "https://e.com" none none none 3 4
        ["abc1234"]
      = some (none, Store.update emptyStore (linksKey "h.test")
          (some (RValue.hash [("abc1234", ⟨"https://e.com", "T", 3⟩)])))
    ∧ (1 : Nat) = 1
    ∧ hlookupStore emptyStore (linksKey "h.test") "abc1234" = none
    ∧ hlookupStore (Store.update emptyStore (linksKey "h.test")
          (some (RValue.hash [("abc1234", ⟨"https://e.com", "T", 3⟩)])))
        (linksKey "h.test") "abc1234" = some ⟨"https://e.com", "T", 3⟩
    ∧ Store.update emptyStore (linksKey "h.test")
          (some (RValue.hash [("abc1234", ⟨"https://e.com", "T", 3⟩)])) "zzz"
        = emptyStore "zzz" :=
  addLink_random_null reservedDemo (fun _ => "T") emptyStore "h.test" "https://e.com"
    none none none 3 4 ["abc1234"] 1 "abc1234"
    (Store.update emptyStore (linksKey "h.test")
      (some (RValue.hash [("abc1234", ⟨"https://e.com", "T", 3⟩)]))) "zzz"
    rfl rfl (by decide)

/-- C1: the random-key allocators do not respect the reserved set on the
primary domain: with "privacy" in the (spec-modelled) reserved set and
the nanoid stream producing "privacy", setRandomKey on an empty dub.sh
namespace creates and returns that reserved key, and getRandomKey also
returns it as available — while checkIfKeyExists, the probe the spec
demands the allocators use, reports it as taken. -/
theorem randomKey_allocates_reserved :
    Option.map (fun z => z.2.1)
        (setRandomKey (fun _ => "T") emptyStore "dub.sh" "https://x.io" none 5 ["privacy"])
      = some "privacy"
    ∧ getRandomKey emptyStore "dub.sh" ["privacy"] = some "privacy"
    ∧ "privacy" ∈ reservedDemo
    ∧ isNanoidKey "privacy" = true
    ∧ checkIfKeyExists reservedDemo emptyStore "dub.sh" "privacy" = 1 := by
  refine ⟨rfl, rfl, by decide, by decide, by decide⟩

/-- C2: a random-path create leaves the store in violation of the
links/timestamps invariant: addLink with no explicit key creates the
record in `links[hostname]`, yet returns null and inserts no member into
the primary timestamp index nor into any per-user index. -/
theorem addLink_random_breaks_index_invariant :
    Option.map (fun p => p.1)
        (addLink reservedDemo (fun _ => "T") emptyStore "ex.test" "https://example.com"
          none none none 7 8 ["k1k1k1k"]) = some none
    ∧ Option.map (fun p => hlookupStore p.2 (linksKey "ex.test") "k1k1k1k")
        (addLink reservedDemo (fun _ => "T") emptyStore "ex.test" "https://example.com"
          none none none 7 8 ["k1k1k1k"])
      = some (some ⟨"https://example.com", "T", 7⟩)
    ∧ Option.map (fun p => p.2 (tsKey "ex.test" none))
        (addLink reservedDemo (fun _ => "T") emptyStore "ex.test" "https://example.com"
          none none none 7 8 ["k1k1k1k"]) = some none
    ∧ Option.map (fun p => p.2 (tsKey "ex.test" (some "u1")))
        (addLink reservedDemo (fun _ => "T") emptyStore "ex.test" "https://example.com"
          none none none 7 8 ["k1k1k1k"]) = some none := by
  refine ⟨by decide, by decide, by decide, by decide⟩

/-- C7: creating a link with an explicit key that is already present in
the hash returns null and leaves the store exactly as it was: no field
of the stored record is overwritten and no member enters any timestamp
index. -/
theorem addLink_existing_key_null (reserved : List String) (titleOf : String → String)
    (s : Store) (hostname url k : String) (title userId : Option String)
    (nowRec nowScore : Nat) (cands : List String)
    (hk : k ≠ "")
    (hex : hlookupStore s (linksKey hostname) k ≠ none) :
    addLink reserved titleOf s hostname url (some k) title userId nowRec nowScore cands
      = some (none, s) := by
  have ht : truthy (some k) = true := by
    simp [truthy, hk]
  by_cases hres : hostname = "dub.sh" ∧ truthy (some k) = true
      ∧ (some k).getD "" ∈ reserved
  · rw [addLink, if_pos hres]
  · rw [addLink, if_neg hres]
    simp only [ht, if_true]
    cases hsL : s (linksKey hostname) with
    | none => exact absurd (by rw [hlookupStore, hsL]) hex
    | some v2 =>
      cases v2 with
      | hash l =>
        cases hl : alookup k l with
        | none =>
          refine absurd ?_ hex
          rw [hlookupStore, hsL]
          exact hl
        | some w =>
          simp only [setKey, hsetnxStore, Option.getD_some, hsL, hl]
          rfl
      | zset l => exact absurd (by rw [hlookupStore, hsL]) hex
      | scalar n => exact absurd (by rw [hlookupStore, hsL]) hex

/-- Witness: re-creating the already present key of `sDup` fails and
returns the store unchanged. -/
theorem addLink_existing_key_null_witness :
    "k7k7k7k" ≠ ""
    ∧ addLink reservedDemo (fun _ => "T") sDup "w.test" "https://other.io" (some "k7k7k7k")
        none none 11 12 [] = some (none, sDup) :=
  ⟨by decide,
    addLink_existing_key_null reservedDemo (fun _ => "T") sDup "w.test" "https://other.io"
      "k7k7k7k" none none 11 12 [] (by decide) (by decide)⟩

/-- C9: a same-key edit succeeds and only rewrites the url/title/timestamp
fields of the edited record: the record under `key` becomes exactly the
given fields, every other hash field keeps its value, every other store
key is untouched, and the ordered-set membership of every key of the
store — in particular of every timestamp index — is unchanged. -/
theorem editLink_sameKey_frame (reserved : List String) (s : Store)
    (hostname key url title : String) (ts : Nat) (userId : Option String)
    (f x y : String)
    (hH : isHashOrNone (s (linksKey hostname)) = true)
    (hf : f ≠ key)
    (hx : x ≠ linksKey hostname) :
    ((editLink reserved s hostname key key url title ts userId).1).isSome = true
    ∧ hlookupStore (editLink reserved s hostname key key url title ts userId).2
        (linksKey hostname) key = some ⟨url, title, ts⟩
    ∧ hlookupStore (editLink reserved s hostname key key url title ts userId).2
        (linksKey hostname) f = hlookupStore s (linksKey hostname) f
    ∧ (editLink reserved s hostname key key url title ts userId).2 x = s x
    ∧ zmembersOf ((editLink reserved s hostname key key url title ts userId).2 y)
        = zmembersOf (s y) := by
  rw [editLink, if_pos rfl]
  cases hsL : s (linksKey hostname) with
  | none =>
    refine ⟨rfl, ?_, ?_, ?_, ?_⟩
    · simp [hsetStore, hsL, hlookupStore, alookup]
    · simp [hsetStore, hsL, hlookupStore, Store.update, alookup, Ne.symm hf]
    · simp [hsetStore, hsL, Store.update, hx]
    · by_cases hy : y = linksKey hostname
      · subst hy
        simp [hsetStore, hsL, zmembersOf]
      · simp [hsetStore, hsL, Store.update, hy, zmembersOf]
  | some v2 =>
    cases v2 with
    | hash l =>
      refine ⟨rfl, ?_, ?_, ?_, ?_⟩
      · simp [hsetStore, hsL, hlookupStore, alookup_aset_self]
      · simp [hsetStore, hsL, hlookupStore, alookup_aset_ne hf]
      · simp [hsetStore, hsL, Store.update, hx]
      · by_cases hy : y = linksKey hostname
        · subst hy
          simp [hsetStore, hsL, zmembersOf]
        · simp [hsetStore, hsL, Store.update, hy, zmembersOf]
    | zset l => simp [isHashOrNone, hsL] at hH
    | scalar n => simp [isHashOrNone, hsL] at hH

/-- Witness: a same-key edit of the clicked link of `sEdit` with fresh
url/title/timestamp. -/
theorem editLink_sameKey_frame_witness :
    ((editLink reservedDemo sEdit "e.test" "oldkey1" "oldkey1" "https://n.io" "N" 77
        none).1).isSome = true
    ∧ hlookupStore (editLink reservedDemo sEdit "e.test" "oldkey1" "oldkey1" "https://n.io"
        "N" 77 none).2 (linksKey "e.test") "oldkey1" = some ⟨"https://n.io", "N", 77⟩
    ∧ hlookupStore (editLink reservedDemo sEdit "e.test" "oldkey1" "oldkey1" "https://n.io"
        "N" 77 none).2 (linksKey "e.test") "otherkey"
      = hlookupStore sEdit (linksKey "e.test") "otherkey"
    ∧ (editLink reservedDemo sEdit "e.test" "oldkey1" "oldkey1" "https://n.io" "N" 77
        none).2 (tsKey "e.test" none) = sEdit (tsKey "e.test" none)
    ∧ zmembersOf ((editLink reservedDemo sEdit "e.test" "oldkey1" "oldkey1" "https://n.io"
        "N" 77 none).2 (tsKey "e.test" none)) = zmembersOf (sEdit (tsKey "e.test" none)) :=
  editLink_sameKey_frame reservedDemo sEdit "e.test" "oldkey1" "https://n.io" "N" 77 none
    "otherkey" (tsKey "e.test" none) (tsKey "e.test" none)
    (by decide) (by decide) (by decide)

theorem execPipe_state_cons (s : Store) (c : Cmd) (cs : List Cmd) :
    (execPipe s (c :: cs)).2 = (execPipe (execCmd s c).2 cs).2 := rfl

theorem execPipe_state_nil (s : Store) : (execPipe s []).2 = s := rfl

theorem hlookupStore_hash {s : Store} {k : String} {l : List (String × LinkRecord)}
    (h : s k = some (.hash l)) (f : String) : hlookupStore s k f = alookup f l := by
  rw [hlookupStore, h]

theorem zscoreStore_zset {s : Store} {k : String} {l : List (String × Nat)}
    (h : s k = some (.zset l)) (m : String) : zscoreStore s k m = alookup m l := by
  rw [zscoreStore, h]

/-- C4: an edit renaming `oldKey` to a fresh non-reserved `newKey`, with
the record's current field values passed in, issues the four hash/index
commands — plus the click-log rename exactly when the old log has at
least one recorded click — as one ordered batch, and afterwards the old
hash field is gone, the new field holds the same url/title/timestamp, the
old index member is gone, the new member sits at the record's timestamp,
the click log has moved verbatim exactly when it was nonempty, and every
other key of the store is untouched. -/
theorem editLink_rename (reserved : List String) (s : Store)
    (hostname key newKey url title : String) (ts : Nat) (userId : Option String)
    (l0 : List (String × LinkRecord)) (t0 : List (String × Nat)) (x : String)
    (hne : key ≠ newKey)
    (hres : ¬(hostname = "dub.sh" ∧ newKey ∈ reserved))
    (hL : s (linksKey hostname) = some (.hash l0))
    (hT : s (tsKey hostname userId) = some (.zset t0))
    (hCO : isZsetOrNone (s (clicksKey hostname key)) = true)
    (hold : alookup key l0 = some ⟨url, title, ts⟩)
    (hnew : alookup newKey l0 = none)
    (hx1 : x ≠ linksKey hostname) (hx2 : x ≠ tsKey hostname userId)
    (hx3 : x ≠ clicksKey hostname key) (hx4 : x ≠ clicksKey hostname newKey) :
    ((editLink reserved s hostname key newKey url title ts userId).1).isSome = true
    ∧ editPipeline hostname key newKey url title ts userId
        (zcardStore s (clicksKey hostname key))
      = [ Cmd.hdel (linksKey hostname) key,
          Cmd.hsetF (linksKey hostname) newKey ⟨url, title, ts⟩,
          Cmd.zrem (tsKey hostname userId) key,
          Cmd.zadd (tsKey hostname userId) ts newKey ]
        ++ (if 0 < zcardStore s (clicksKey hostname key)
            then [Cmd.ren (clicksKey hostname key) (clicksKey hostname newKey)] else [])
    ∧ hlookupStore (editLink reserved s hostname key newKey url title ts userId).2
        (linksKey hostname) key = none
    ∧ hlookupStore (editLink reserved s hostname key newKey url title ts userId).2
        (linksKey hostname) newKey = some ⟨url, title, ts⟩
    ∧ zscoreStore (editLink reserved s hostname key newKey url title ts userId).2
        (tsKey hostname userId) key = none
    ∧ zscoreStore (editLink reserved s hostname key newKey url title ts userId).2
        (tsKey hostname userId) newKey = some ts
    ∧ (editLink reserved s hostname key newKey url title ts userId).2
        (clicksKey hostname newKey)
      = (if 0 < zcardStore s (clicksKey hostname key)
         then s (clicksKey hostname key) else s (clicksKey hostname newKey))
    ∧ (editLink reserved s hostname key newKey url title ts userId).2
        (clicksKey hostname key)
      = (if 0 < zcardStore s (clicksKey hostname key)
         then none else s (clicksKey hostname key))
    ∧ (editLink reserved s hostname key newKey url title ts userId).2 x = s x := by
  have hLneT : tsKey hostname userId ≠ linksKey hostname :=
    Ne.symm (linksKey_ne_tsKey hostname userId)
  have hCOneL : clicksKey hostname key ≠ linksKey hostname :=
    Ne.symm (linksKey_ne_clicksKey hostname key)
  have hCOneT : clicksKey hostname key ≠ tsKey hostname userId :=
    Ne.symm (tsKey_ne_clicksKey hostname key userId)
  have hCNneL : clicksKey hostname newKey ≠ linksKey hostname :=
    Ne.symm (linksKey_ne_clicksKey hostname newKey)
  have hCNneT : clicksKey hostname newKey ≠ tsKey hostname userId :=
    Ne.symm (tsKey_ne_clicksKey hostname newKey userId)
  have hCOneCN : clicksKey hostname key ≠ clicksKey hostname newKey := clicksKey_ne hne
  have hLneCO : linksKey hostname ≠ clicksKey hostname key :=
    linksKey_ne_clicksKey hostname key
  have hLneCN : linksKey hostname ≠ clicksKey hostname newKey :=
    linksKey_ne_clicksKey hostname newKey
  have hTneCO : tsKey hostname userId ≠ clicksKey hostname key :=
    tsKey_ne_clicksKey hostname key userId
  have hTneCN : tsKey hostname userId ≠ clicksKey hostname newKey :=
    tsKey_ne_clicksKey hostname newKey userId
  have hTneL : linksKey hostname ≠ tsKey hostname userId :=
    linksKey_ne_tsKey hostname userId
  have hcheck : checkIfKeyExists reserved s hostname newKey = 0 := by
    simp [checkIfKeyExists, hres, hexistsStore, hL, hnew]
  rw [editLink, if_neg hne, if_neg hres,
    if_neg (fun hcon => by rw [hcheck] at hcon; exact absurd hcon (by decide))]
  have e1 : (execCmd s (Cmd.hdel (linksKey hostname) key)).2
      = Store.update s (linksKey hostname) (some (.hash (aremove key l0))) := by
    simp [execCmd, hdelStore, hL]
  have e2 : (execCmd (Store.update s (linksKey hostname) (some (.hash (aremove key l0))))
        (Cmd.hsetF (linksKey hostname) newKey ⟨url, title, ts⟩)).2
      = Store.update s (linksKey hostname)
          (some (.hash (aset newKey ⟨url, title, ts⟩ (aremove key l0)))) := by
    simp [execCmd, hsetStore, update_self]
    funext q
    by_cases hq : q = linksKey hostname
    · subst hq; rw [update_self, update_self]
    · rw [update_ne _ _ _ hq, update_ne _ _ _ hq, update_ne _ _ _ hq]
  have hS2T : Store.update s (linksKey hostname)
        (some (.hash (aset newKey ⟨url, title, ts⟩ (aremove key l0))))
        (tsKey hostname userId) = some (.zset t0) := by
    rw [update_ne _ _ _ hLneT, hT]
  have e3 : (execCmd (Store.update s (linksKey hostname)
        (some (.hash (aset newKey ⟨url, title, ts⟩ (aremove key l0)))))
        (Cmd.zrem (tsKey hostname userId) key)).2
      = Store.update (Store.update s (linksKey hostname)
          (some (.hash (aset newKey ⟨url, title, ts⟩ (aremove key l0)))))
          (tsKey hostname userId) (some (.zset (aremove key t0))) := by
    simp [execCmd, zremStore, hS2T]
  have e4 : (execCmd (Store.update (Store.update s (linksKey hostname)
        (some (.hash (aset newKey ⟨url, title, ts⟩ (aremove key l0)))))
          (tsKey hostname userId) (some (.zset (aremove key t0))))
        (Cmd.zadd (tsKey hostname userId) ts newKey)).2
      = Store.update (Store.update s (linksKey hostname)
          (some (.hash (aset newKey ⟨url, title, ts⟩ (aremove key l0)))))
          (tsKey hostname userId)
          (some (.zset (aremove newKey (aremove key t0) ++ [(newKey, ts)]))) := by
    simp [execCmd, zaddStore, update_self]
    funext q
    by_cases hq : q = tsKey hostname userId
    · subst hq; rw [update_self, update_self]
    · rw [update_ne _ _ _ hq, update_ne _ _ _ hq, update_ne _ _ _ hq]
  by_cases hclick : 0 < zcardStore s (clicksKey hostname key)
  · obtain ⟨cl, hsCO⟩ : ∃ cl, s (clicksKey hostname key) = some (.zset cl) := by
      cases hsCO : s (clicksKey hostname key) with
      | none => simp [zcardStore, hsCO] at hclick
      | some v =>
        cases v with
        | zset cl => exact ⟨cl, rfl⟩
        | hash l => simp [isZsetOrNone, hsCO] at hCO
        | scalar n => simp [isZsetOrNone, hsCO] at hCO
    have hpipe : editPipeline hostname key newKey url title ts userId
        (zcardStore s (clicksKey hostname key))
        = [ Cmd.hdel (linksKey hostname) key,
            Cmd.hsetF (linksKey hostname) newKey ⟨url, title, ts⟩,
            Cmd.zrem (tsKey hostname userId) key,
            Cmd.zadd (tsKey hostname userId) ts newKey,
            Cmd.ren (clicksKey hostname key) (clicksKey hostname newKey) ] := by
      rw [editPipeline, if_pos hclick]
      rfl
    have hS4CO : Store.update (Store.update s (linksKey hostname)
          (some (.hash (aset newKey ⟨url, title, ts⟩ (aremove key l0)))))
          (tsKey hostname userId)
          (some (.zset (aremove newKey (aremove key t0) ++ [(newKey, ts)])))
          (clicksKey hostname key) = some (.zset cl) := by
      rw [update_ne _ _ _ hCOneT, update_ne _ _ _ hCOneL, hsCO]
    have e5 : (execCmd (Store.update (Store.update s (linksKey hostname)
          (some (.hash (aset newKey ⟨url, title, ts⟩ (aremove key l0)))))
          (tsKey hostname userId)
          (some (.zset (aremove newKey (aremove key t0) ++ [(newKey, ts)]))))
        (Cmd.ren (clicksKey hostname key) (clicksKey hostname newKey))).2
        = Store.update (Store.update (Store.update (Store.update s (linksKey hostname)
            (some (.hash (aset newKey ⟨url, title, ts⟩ (aremove key l0)))))
            (tsKey hostname userId)
            (some (.zset (aremove newKey (aremove key t0) ++ [(newKey, ts)]))))
            (clicksKey hostname key) none)
            (clicksKey hostname newKey) (some (.zset cl)) := by
      simp [execCmd, renameOne, hS4CO]
    have hstate : (execPipe s (editPipeline hostname key newKey url title ts userId
          (zcardStore s (clicksKey hostname key)))).2
        = Store.update (Store.update (Store.update (Store.update s (linksKey hostname)
            (some (.hash (aset newKey ⟨url, title, ts⟩ (aremove key l0)))))
            (tsKey hostname userId)
            (some (.zset (aremove newKey (aremove key t0) ++ [(newKey, ts)]))))
            (clicksKey hostname key) none)
            (clicksKey hostname newKey) (some (.zset cl)) := by
      rw [hpipe, execPipe_state_cons, e1, execPipe_state_cons, e2, execPipe_state_cons,
        e3, execPipe_state_cons, e4, execPipe_state_cons, e5, execPipe_state_nil]
    have hvL : (execPipe s (editPipeline hostname key newKey url title ts userId
          (zcardStore s (clicksKey hostname key)))).2 (linksKey hostname)
        = some (.hash (aset newKey ⟨url, title, ts⟩ (aremove key l0))) := by
      rw [hstate, update_ne _ _ _ hLneCN, update_ne _ _ _ hLneCO,
        update_ne _ _ _ hTneL, update_self]
    have hvT : (execPipe s (editPipeline hostname key newKey url title ts userId
          (zcardStore s (clicksKey hostname key)))).2 (tsKey hostname userId)
        = some (.zset (aremove newKey (aremove key t0) ++ [(newKey, ts)])) := by
      rw [hstate, update_ne _ _ _ hTneCN, update_ne _ _ _ hTneCO, update_self]
    refine ⟨rfl, by rw [hpipe, if_pos hclick]; rfl, ?_, ?_, ?_, ?_, ?_, ?_, ?_⟩
    · rw [hlookupStore_hash hvL key, alookup_aset_ne hne, alookup_aremove_self]
    · rw [hlookupStore_hash hvL newKey, alookup_aset_self]
    · rw [zscoreStore_zset hvT key, alookup_snoc_ne hne, alookup_aremove_ne hne,
        alookup_aremove_self]
    · rw [zscoreStore_zset hvT newKey,
        alookup_snoc_self _ _ _ (alookup_aremove_self _ _)]
    · rw [hstate, if_pos hclick, update_self, hsCO]
    · rw [hstate, if_pos hclick, update_ne _ _ _ hCOneCN, update_self]
    · rw [hstate, update_ne _ _ _ hx4, update_ne _ _ _ hx3, update_ne _ _ _ hx2,
        update_ne _ _ _ hx1]
  · have hpipe : editPipeline hostname key newKey url title ts userId
        (zcardStore s (clicksKey hostname key))
        = [ Cmd.hdel (linksKey hostname) key,
            Cmd.hsetF (linksKey hostname) newKey ⟨url, title, ts⟩,
            Cmd.zrem (tsKey hostname userId) key,
            Cmd.zadd (tsKey hostname userId) ts newKey ] := by
      rw [editPipeline, if_neg hclick]
      rfl
    have hstate : (execPipe s (editPipeline hostname key newKey url title ts userId
          (zcardStore s (clicksKey hostname key)))).2
        = Store.update (Store.update s (linksKey hostname)
            (some (.hash (aset newKey ⟨url, title, ts⟩ (aremove key l0)))))
            (tsKey hostname userId)
            (some (.zset (aremove newKey (aremove key t0) ++ [(newKey, ts)]))) := by
      rw [hpipe, execPipe_state_cons, e1, execPipe_state_cons, e2, execPipe_state_cons,
        e3, execPipe_state_cons, e4, execPipe_state_nil]
    have hvL : (execPipe s (editPipeline hostname key newKey url title ts userId
          (zcardStore s (clicksKey hostname key)))).2 (linksKey hostname)
        = some (.hash (aset newKey ⟨url, title, ts⟩ (aremove key l0))) := by
      rw [hstate, update_ne _ _ _ hTneL, update_self]
    have hvT : (execPipe s (editPipeline hostname key newKey url title ts userId
          (zcardStore s (clicksKey hostname key)))).2 (tsKey hostname userId)
        = some (.zset (aremove newKey (aremove key t0) ++ [(newKey, ts)])) := by
      rw [hstate, update_self]
    refine ⟨rfl, by rw [hpipe, if_neg hclick]; rfl, ?_, ?_, ?_, ?_, ?_, ?_, ?_⟩
    · rw [hlookupStore_hash hvL key, alookup_aset_ne hne, alookup_aremove_self]
    · rw [hlookupStore_hash hvL newKey, alookup_aset_self]
    · rw [zscoreStore_zset hvT key, alookup_snoc_ne hne, alookup_aremove_ne hne,
        alookup_aremove_self]
    · rw [zscoreStore_zset hvT newKey,
        alookup_snoc_self _ _ _ (alookup_aremove_self _ _)]
    · rw [hstate, if_neg hclick, update_ne _ _ _ hCNneT, update_ne _ _ _ hCNneL]
    · rw [hstate, if_neg hclick, update_ne _ _ _ hCOneT, update_ne _ _ _ hCOneL]
    · rw [hstate, update_ne _ _ _ hx2, update_ne _ _ _ hx1]

/-- Witness: renaming the clicked link of `sEdit` from "oldkey1" to the
fresh key "newkey2", passing the record's current values. -/
theorem editLink_rename_witness :
    ((editLink reservedDemo sEdit "e.test" "oldkey1" "newkey2" "https://o.io" "O" 30
        none).1).isSome = true
    ∧ editPipeline "e.test" "oldkey1" "newkey2" "https://o.io" "O" 30 none
        (zcardStore sEdit (clicksKey "e.test" "oldkey1"))
      = [ Cmd.hdel (linksKey "e.test") "oldkey1",
          Cmd.hsetF (linksKey "e.test") "newkey2" ⟨"https://o.io", "O", 30⟩,
          Cmd.zrem (tsKey "e.test" none) "oldkey1",
          Cmd.zadd (tsKey "e.test" none) 30 "newkey2" ]
        ++ (if 0 < zcardStore sEdit (clicksKey "e.test" "oldkey1")
            then [Cmd.ren (clicksKey "e.test" "oldkey1") (clicksKey "e.test" "newkey2")]
            else [])
    ∧ hlookupStore (editLink reservedDemo sEdit "e.test" "oldkey1" "newkey2" "https://o.io"
        "O" 30 none).2 (linksKey "e.test") "oldkey1" = none
    ∧ hlookupStore (editLink reservedDemo sEdit "e.test" "oldkey1" "newkey2" "https://o.io"
        "O" 30 none).2 (linksKey "e.test") "newkey2" = some ⟨"https://o.io", "O", 30⟩
    ∧ zscoreStore (editLink reservedDemo sEdit "e.test" "oldkey1" "newkey2" "https://o.io"
        "O" 30 none).2 (tsKey "e.test" none) "oldkey1" = none
    ∧ zscoreStore (editLink reservedDemo sEdit "e.test" "oldkey1" "newkey2" "https://o.io"
        "O" 30 none).2 (tsKey "e.test" none) "newkey2" = some 30
    ∧ (editLink reservedDemo sEdit "e.test" "oldkey1" "newkey2" "https://o.io" "O" 30
        none).2 (clicksKey "e.test" "newkey2")
      = (if 0 < zcardStore sEdit (clicksKey "e.test" "oldkey1")
         then sEdit (clicksKey "e.test" "oldkey1")
         else sEdit (clicksKey "e.test" "newkey2"))
    ∧ (editLink reservedDemo sEdit "e.test" "oldkey1" "newkey2" "https://o.io" "O" 30
        none).2 (clicksKey "e.test" "oldkey1")
      = (if 0 < zcardStore sEdit (clicksKey "e.test" "oldkey1")
         then none else sEdit (clicksKey "e.test" "oldkey1"))
    ∧ (editLink reservedDemo sEdit "e.test" "oldkey1" "newkey2" "https://o.io" "O" 30
        none).2 (rootClicksKey "e.test") = sEdit (rootClicksKey "e.test") :=
  editLink_rename reservedDemo sEdit "e.test" "oldkey1" "newkey2" "https://o.io" "O" 30
    none [("oldkey1", ⟨"https://o.io", "O", 30⟩)] [("oldkey1", 30)]
    (rootClicksKey "e.test")
    (by decide) (by decide) (by decide) (by decide) (by decide) (by decide) (by decide)
    (by decide) (by decide) (by decide) (by decide)

/-- C8 as stated fails on the code: on a store whose index holds "ghost"
with no hash record, getLinksForProject still emits an entry for "ghost"
carrying no record fields — an entry fabricated for a key with absent
metadata — so the output does not consist of valid reconstructions only. -/
theorem getLinksForProject_emits_dangling :
    getLinksForProject sDangling "p" none
      = [("ghost", none), ("real", some ⟨"https://r.io", "R", 10⟩)]
    ∧ hlookupStore sDangling (linksKey "p") "ghost" = none
    ∧ (getLinksForProject sDangling "p" none).all (fun e => e.2.isSome) = false := by
  refine ⟨by decide, by decide, by decide⟩

/-- C8 amended: the read never fails and returns exactly one entry per
index key, most recent first, each key joined with its hash record when
one is present; a key with absent metadata yields an entry carrying only
the key and no record fields, rather than being dropped or filled with
invented field values. -/
theorem getLinksForProject_entries (s : Store) (slug : String) (userId : Option String) :
    getLinksForProject s slug userId
      = (zrangeRevStore s (tsKey slug userId)).map
          (fun k => (k, hlookupStore s (linksKey slug) k)) := by
  rw [getLinksForProject]
  by_cases hk : (zrangeRevStore s (tsKey slug userId)).length = 0
  · rw [if_pos hk]
    rw [List.length_eq_zero] at hk
    rw [hk]
    rfl
  · rw [if_neg hk]

/-- C10 as stated fails on the code: with a cached usage of 0 present,
getUsage recomputes — returning 1, not the cached 0 — and rewrites the
cache entry, because the truthiness test treats a cached 0 as a miss. -/
theorem getUsage_zero_cache_recomputes :
    sZeroCache (usageKey "c.test") = some (RValue.scalar 0)
    ∧ (getUsage (fun _ => (0, 100)) sZeroCache "c.test" 60 none).1 = 1
    ∧ (getUsage (fun _ => (0, 100)) sZeroCache "c.test" 60 none).2 (usageKey "c.test")
      = some (RValue.scalar 1) := by
  refine ⟨by decide, by decide, by decide⟩

/-- C10 amended: when the cache entry is present with a nonzero value,
getUsage returns it directly with no recomputation and no write to the
store; a cached 0 is falsy and is treated as a cache miss. -/
theorem getUsage_cache_hit (monthWindow : Nat → Nat × Nat) (s : Store)
    (hostname : String) (now : Nat) (billingCycleStart : Option Nat) (v : Nat)
    (hc : s (usageKey hostname) = some (RValue.scalar v)) (hv : v ≠ 0) :
    getUsage monthWindow s hostname now billingCycleStart = (v, s) := by
  simp [getUsage, cachedVal, hc, truthyCache, hv]

/-- Witness: a cached nonzero usage value of 5 is returned unchanged. -/
theorem getUsage_cache_hit_witness :
    Store.update emptyStore (usageKey "z.test") (some (RValue.scalar 5)) (usageKey "z.test")
      = some (RValue.scalar 5)
    ∧ getUsage (fun _ => (0, 100))
        (Store.update emptyStore (usageKey "z.test") (some (RValue.scalar 5)))
        "z.test" 60 none
      = (5, Store.update emptyStore (usageKey "z.test") (some (RValue.scalar 5))) :=
  ⟨by decide,
    getUsage_cache_hit (fun _ => (0, 100))
      (Store.update emptyStore (usageKey "z.test") (some (RValue.scalar 5)))
      "z.test" 60 none 5 (by decide) (by decide)⟩

theorem execPipe_cons (s : Store) (c : Cmd) (cs : List Cmd) :
    execPipe s (c :: cs)
      = ((execCmd s c).1 :: (execPipe (execCmd s c).2 cs).1,
         (execPipe (execCmd s c).2 cs).2) := rfl

theorem execPipe_zcount (s : Store) (ks : List String) (lo hi : Nat)
    (mk : String → String) :
    (execPipe s (ks.map (fun k => Cmd.zcount (mk k) lo hi))).1
        = ks.map (fun k => some (zcountStore s (mk k) lo hi))
    ∧ (execPipe s (ks.map (fun k => Cmd.zcount (mk k) lo hi))).2 = s := by
  induction ks with
  | nil => exact ⟨rfl, rfl⟩
  | cons k rest ih =>
    have h1 : execCmd s (Cmd.zcount (mk k) lo hi)
        = (some (zcountStore s (mk k) lo hi), s) := rfl
    refine ⟨?_, ?_⟩
    · rw [List.map_cons, execPipe_cons, h1, List.map_cons]
      exact congrArg _ ih.1
    · rw [List.map_cons, execPipe_cons, h1]
      exact ih.2

theorem foldl_add_from (l : List Nat) : ∀ a : Nat, l.foldl (· + ·) a = a + l.sum := by
  induction l with
  | nil =>
    intro a
    simp
  | cons b rest ih =>
    intro a
    rw [List.foldl_cons, ih (a + b), List.sum_cons]
    omega

theorem getUsage_miss_value (monthWindow : Nat → Nat × Nat) (s : Store)
    (hostname : String) (now : Nat) (b : Option Nat)
    (hmiss : s (usageKey hostname) = none) :
    (getUsage monthWindow s hostname now b).1
      = ((zrangeStore s (tsKey hostname none)).map
          (fun k => zcountStore s (clicksKey hostname k)
            (usageWindow monthWindow now b).1 (usageWindow monthWindow now b).2)).sum := by
  have h1 : cachedVal s hostname = none := by rw [cachedVal, hmiss]
  rw [getUsage, h1, if_neg (by simp [truthyCache]), getUsageCompute]
  by_cases hl : 0 < (zrangeStore s (tsKey hostname none)).length
  · rw [if_pos hl,
      (execPipe_zcount s (zrangeStore s (tsKey hostname none))
        (usageWindow monthWindow now b).1 (usageWindow monthWindow now b).2
        (fun k => clicksKey hostname k)).1]
    rw [List.map_map, foldl_add_from]
    rw [Nat.zero_add]
    exact congrArg List.sum (List.map_congr_left (fun k _ => rfl))
  · rw [if_neg hl]
    have : zrangeStore s (tsKey hostname none) = [] := by
      cases hz : zrangeStore s (tsKey hostname none) with
      | nil => rfl
      | cons a r => rw [hz] at hl; simp at hl
    rw [this]
    rfl

/-- C6: on a cache miss, getUsage is the sum over the primary index keys
of the windowed counts of their click logs; events in the root click log
never contribute (replacing that log with anything leaves the result
unchanged); and on the concrete scenario — key "abc1234" on "ex.test"
with three clicks in the current window and one recorded root click —
the computed usage is 3, the root click being excluded. -/
theorem getUsage_counts_keyed_clicks_only (monthWindow : Nat → Nat × Nat) (s : Store)
    (hostname : String) (now : Nat) (b : Option Nat) (w : Option RValue)
    (hmiss : s (usageKey hostname) = none) :
    (getUsage monthWindow s hostname now b).1
      = ((zrangeStore s (tsKey hostname none)).map
          (fun k => zcountStore s (clicksKey hostname k)
            (usageWindow monthWindow now b).1 (usageWindow monthWindow now b).2)).sum
    ∧ (getUsage monthWindow (Store.update s (rootClicksKey hostname) w) hostname now b).1
      = (getUsage monthWindow s hostname now b).1
    ∧ zcardStore sScen (rootClicksKey "ex.test") = 1
    ∧ (getUsage (fun _ => (0, 1000)) sScen "ex.test" 600 none).1 = 3 := by
  have hmiss2 : Store.update s (rootClicksKey hostname) w (usageKey hostname) = none := by
    rw [update_ne _ _ _ (usageKey_ne_rootClicksKey hostname), hmiss]
  have hT : Store.update s (rootClicksKey hostname) w (tsKey hostname none)
      = s (tsKey hostname none) :=
    update_ne _ _ _ (tsKey_ne_rootClicksKey hostname none)
  have hrange : zrangeStore (Store.update s (rootClicksKey hostname) w)
      (tsKey hostname none) = zrangeStore s (tsKey hostname none) := by
    rw [zrangeStore, hT, zrangeStore]
  have hcnt : ∀ k lo hi, zcountStore (Store.update s (rootClicksKey hostname) w)
      (clicksKey hostname k) lo hi = zcountStore s (clicksKey hostname k) lo hi := by
    intro k lo hi
    rw [zcountStore,
      update_ne _ _ _ (Ne.symm (rootClicksKey_ne_clicksKey hostname k)), zcountStore]
  refine ⟨getUsage_miss_value monthWindow s hostname now b hmiss, ?_, by decide, by decide⟩
  rw [getUsage_miss_value monthWindow s hostname now b hmiss,
    getUsage_miss_value monthWindow (Store.update s (rootClicksKey hostname) w)
      hostname now b hmiss2, hrange]
  exact congrArg _ (List.map_congr_left (fun k _ => hcnt k _ _))

/-- Witness: the usage computation on the concrete scenario store, with
the root log overwritten arbitrarily in the independence conjunct. -/
theorem getUsage_counts_keyed_clicks_only_witness :
    (getUsage (fun _ => (0, 1000)) sScen "ex.test" 600 none).1
      = ((zrangeStore sScen (tsKey "ex.test" none)).map
          (fun k => zcountStore sScen (clicksKey "ex.test" k)
            (usageWindow (fun _ => (0, 1000)) 600 none).1
            (usageWindow (fun _ => (0, 1000)) 600 none).2)).sum
    ∧ (getUsage (fun _ => (0, 1000))
        (Store.update sScen (rootClicksKey "ex.test") (some (RValue.zset [("y", 2)])))
        "ex.test" 600 none).1
      = (getUsage (fun _ => (0, 1000)) sScen "ex.test" 600 none).1
    ∧ zcardStore sScen (rootClicksKey "ex.test") = 1
    ∧ (getUsage (fun _ => (0, 1000)) sScen "ex.test" 600 none).1 = 3 :=
  getUsage_counts_keyed_clicks_only (fun _ => (0, 1000)) sScen "ex.test" 600 none
    (some (RValue.zset [("y", 2)])) (by decide)
